import Mathlib

/-
Verification of the checkpoint persistence and architecture-faithful model
reconstruction logic of the fc_model saving-and-loading notebook.

The source notebook builds a fully connected network via
fc_model.Network(input_size, output_size, hidden_layers, drop_p = 0.5),
captures its parameters with model.state_dict(), persists a checkpoint
dictionary with the keys input_size, output_size, hidden_layers and
state_dict (the first two hardcoded to 784 and 10), and restores it with
load_checkpoint, which rebuilds the network from the stored sizes and then
calls model.load_state_dict on the stored snapshot.

Tensors are modelled by their shape (list of dimension sizes) together with
a flat list of values; values are opaque natural numbers standing for the
bit patterns of the stored floats, so equality of values is bit-for-bit
equality on the same floating point representation.
-/

namespace FcCkpt

/-- Shape of a tensor: the ordered tuple of its dimension sizes. -/
abbrev Shape := List Nat

/-- Dense numeric array: a shape and a flat list of element bit patterns. -/
structure Tensor where
  shape : Shape
  data : List Nat
deriving DecidableEq, Repr

/-- Layer-qualified parameter names appearing in the state dict of a
Network, as printed by the notebook: hidden_layers.i.weight,
hidden_layers.i.bias, output.weight and output.bias. -/
inductive PKey where
  | hiddenWeight (i : Nat)
  | hiddenBias (i : Nat)
  | outputWeight
  | outputBias
deriving DecidableEq, Repr

/-- Render a parameter key to the string the notebook prints for it. -/
def PKey.render : PKey → String
  | .hiddenWeight i => "hidden_layers." ++ Nat.repr i ++ ".weight"
  | .hiddenBias i => "hidden_layers." ++ Nat.repr i ++ ".bias"
  | .outputWeight => "output.weight"
  | .outputBias => "output.bias"

/-- One nn.Linear module: its in_features and out_features together with its
weight tensor of shape (out_features, in_features) and bias tensor of shape
(out_features,). -/
structure Linear where
  in_features : Nat
  out_features : Nat
  weight : Tensor
  bias : Tensor
deriving DecidableEq, Repr

/-- Build a Linear whose weight and bias tensors carry the shapes implied by
its in_features and out_features. -/
def mkLinear (a b : Nat) (w bv : List Nat) : Linear :=
  ⟨a, b, ⟨[b, a], w⟩, ⟨[b], bv⟩⟩

/-- The fc_model.Network module: a ModuleList of hidden Linear layers, an
output Linear layer, and the dropout probability. -/
structure Network where
  hidden_layers : List Linear
  output : Linear
  drop_p : ℚ
deriving DecidableEq, Repr

/-- Parameter snapshot: the ordered mapping from parameter keys to tensors
returned by model.state_dict(). -/
abbrev StateDict := List (PKey × Tensor)

/-- Lookup of a key in a parameter snapshot, first match wins. -/
def findKey (k : PKey) : StateDict → Option Tensor
  | [] => none
  | kv :: rest => if k = kv.1 then some kv.2 else findKey k rest

/-- State dict entries of the hidden layers starting at layer index i, in
forward-pass order: weight then bias for each layer. -/
def sdAux : Nat → List Linear → StateDict
  | _, [] => []
  | i, l :: ls =>
      (PKey.hiddenWeight i, l.weight) :: (PKey.hiddenBias i, l.bias) :: sdAux (i + 1) ls

/-- The ordered parameter snapshot of a network, as model.state_dict()
returns it: hidden layer parameters in forward order, then the output
layer parameters. -/
def Network.state_dict (m : Network) : StateDict :=
  sdAux 0 m.hidden_layers
    ++ [(PKey.outputWeight, m.output.weight), (PKey.outputBias, m.output.bias)]

/-- Overwrite the parameters of the hidden layers starting at index i with
the tensors found in the snapshot; a parameter missing from the snapshot
keeps its current value. -/
def assignAux : Nat → List Linear → StateDict → List Linear
  | _, [], _ => []
  | i, l :: ls, sd =>
      { l with
        weight := (findKey (PKey.hiddenWeight i) sd).getD l.weight,
        bias := (findKey (PKey.hiddenBias i) sd).getD l.bias }
        :: assignAux (i + 1) ls sd

/-- Overwrite every parameter of the network with the tensor the snapshot
holds for its key. -/
def Network.assign (m : Network) (sd : StateDict) : Network :=
  { m with
    hidden_layers := assignAux 0 m.hidden_layers sd,
    output :=
      { m.output with
        weight := (findKey PKey.outputWeight sd).getD m.output.weight,
        bias := (findKey PKey.outputBias sd).getD m.output.bias } }

/-- Keys the model expects that the snapshot does not provide. -/
def missingOf (m : Network) (sd : StateDict) : List PKey :=
  (m.state_dict.map Prod.fst).filter (fun k => (findKey k sd).isNone)

/-- Keys the snapshot provides that the model does not expect. -/
def unexpectedOf (m : Network) (sd : StateDict) : List PKey :=
  (sd.map Prod.fst).filter (fun k => (findKey k m.state_dict).isNone)

/-- Shape comparison for a single own parameter entry against the snapshot:
none when compatible, otherwise the key with the shape found in the
checkpoint snapshot and the shape the current model expects, in the order
the notebook traceback prints them. -/
def mismFn (sd : StateDict) (kv : PKey × Tensor) : Option (PKey × Shape × Shape) :=
  match findKey kv.1 sd with
  | none => none
  | some t => if t.shape = kv.2.shape then none else some (kv.1, t.shape, kv.2.shape)

/-- All per-key shape mismatches between the snapshot and the model, in the
order of the model state dict. -/
def mismatchOf (m : Network) (sd : StateDict) : List (PKey × Shape × Shape) :=
  m.state_dict.filterMap (mismFn sd)

/-- Errors a load can raise: KeyError on a missing dictionary field, a type
failure, a factory failure, the RuntimeError of load_state_dict carrying
missing keys, unexpected keys and all per-key shape mismatches, and a
deserialization failure on a corrupt byte stream. -/
inductive LoadErr where
  | keyError (field : String)
  | typeError
  | buildError
  | loadError (missing unexpected : List PKey) (mismatches : List (PKey × Shape × Shape))
  | deserializationError
deriving DecidableEq, Repr

/-- Modelled from the spec: torch.nn.Module.load_state_dict in strict mode.
Only the validation outcome of this call is visible in the notebook (the
RuntimeError listing missing keys and every size mismatch); the spec states
that validation runs before any assignment and that on failure no parameter
is assigned. The result pairs the call outcome with the post-call state of
the model: unchanged on failure, fully assigned from the snapshot on
success. -/
def load_state_dict_post (m : Network) (sd : StateDict) :
    Except LoadErr Unit × Network :=
  if missingOf m sd = [] ∧ unexpectedOf m sd = [] ∧ mismatchOf m sd = [] then
    (.ok (), m.assign sd)
  else
    (.error (.loadError (missingOf m sd) (unexpectedOf m sd) (mismatchOf m sd)), m)

/-- Outcome of model.load_state_dict(sd): the updated model on success, the
RuntimeError value on failure. -/
def load_state_dict (m : Network) (sd : StateDict) : Except LoadErr Network :=
  match load_state_dict_post m sd with
  | (.ok _, m2) => .ok m2
  | (.error e, _) => .error e

/-- Modelled from the spec: the fc_model.Network constructor (fc_model.py is
not among the provided sources; its layer layout is fixed by the notebook
printouts). Hidden layers are built over consecutive size pairs starting
from the input size; the init argument supplies the freshly initialized
parameter values, indexed by layer, by weight-versus-bias and by element. -/
def buildAux (z : Nat → Nat → Nat → Nat) : Nat → List (Nat × Nat) → List Linear
  | _, [] => []
  | i, ab :: rest =>
      mkLinear ab.1 ab.2
        ((List.range (ab.2 * ab.1)).map (z i 0))
        ((List.range ab.2).map (z i 1))
        :: buildAux z (i + 1) rest

/-- Modelled from the spec: fc_model.Network(input_size, output_size,
hidden_layers, drop_p), the Model Factory. Fails (as the Python constructor
does) when the hidden size list is empty. -/
def Network.build (input_size output_size : Nat) (hidden : List Nat) (p : ℚ)
    (z : Nat → Nat → Nat → Nat) : Option Network :=
  match hidden with
  | [] => none
  | h :: t =>
      some
        { hidden_layers := buildAux z 0 (List.zip (input_size :: h :: t) (h :: t)),
          output :=
            mkLinear ((h :: t).getLast (by simp)) output_size
              ((List.range (output_size * (h :: t).getLast (by simp))).map
                (z (h :: t).length 0))
              ((List.range output_size).map (z (h :: t).length 1)),
          drop_p := p }

/-- The out_features of each hidden layer in forward order, the list the
checkpoint cell of the notebook computes. -/
def Network.hiddenSizes (m : Network) : List Nat :=
  m.hidden_layers.map (fun l => l.out_features)

/-- Model Descriptor: the architecture-defining hyperparameters of the
fully connected network. -/
structure Descriptor where
  input_size : Nat
  output_size : Nat
  hidden_sizes : List Nat
  drop_p : ℚ
deriving DecidableEq, Repr

/-- A valid descriptor: positive widths, at least one hidden layer (the
factory requires one), dropout probability in the interval from zero
inclusive to one exclusive. -/
def Descriptor.valid (D : Descriptor) : Prop :=
  0 < D.input_size ∧ 0 < D.output_size ∧ D.hidden_sizes ≠ [] ∧
    (∀ h ∈ D.hidden_sizes, 0 < h) ∧ 0 ≤ D.drop_p ∧ D.drop_p < 1

instance (D : Descriptor) : Decidable D.valid := by
  unfold Descriptor.valid
  infer_instance

/-- Build the factory model of a descriptor. -/
def buildD (D : Descriptor) (z : Nat → Nat → Nat → Nat) : Option Network :=
  Network.build D.input_size D.output_size D.hidden_sizes D.drop_p z

/-- Modelled from the spec: describe(model), reading the input width, the
output width, each hidden layer out_features in forward order and the
dropout rate off the live model, failing when the layer sequence is not the
expected shape. The hidden width read matches the list comprehension of the
checkpoint cell. -/
def describe (m : Network) : Option Descriptor :=
  match m.hidden_layers with
  | [] => none
  | l :: _ => some ⟨l.in_features, m.output.out_features, m.hiddenSizes, m.drop_p⟩

/-- Values storable in the persisted checkpoint dictionary. -/
inductive PyVal where
  | nat (n : Nat)
  | list (l : List Nat)
  | sd (s : StateDict)
deriving DecidableEq, Repr

/-- The deserialized checkpoint object: a string-keyed dictionary. -/
abbrev PyDict := List (String × PyVal)

/-- Lookup of a field in a checkpoint dictionary. -/
def findStr (k : String) : PyDict → Option PyVal
  | [] => none
  | kv :: rest => if k = kv.1 then some kv.2 else findStr k rest

/-- The checkpoint dictionary the notebook persists: input_size and
output_size hardcoded to 784 and 10, the hidden layer widths read off the
model, and the current parameter snapshot. -/
def checkpoint (m : Network) : PyDict :=
  [("input_size", .nat 784),
   ("output_size", .nat 10),
   ("hidden_layers", .list m.hiddenSizes),
   ("state_dict", .sd m.state_dict)]

/-- Observable milestones of a load_checkpoint call: the factory finished
building the fresh model, and the parameter assignment completed. -/
inductive Ev where
  | built
  | assigned
deriving DecidableEq, Repr

/-- The load_checkpoint function of the notebook, instrumented with the
milestones it passes: look up input_size, output_size and hidden_layers in
evaluation order (KeyError on the first missing one), invoke the factory
with the default dropout, look up state_dict, then load the snapshot into
the fresh model. -/
def load_checkpoint_tr (d : PyDict) (z : Nat → Nat → Nat → Nat) :
    Except LoadErr Network × List Ev :=
  match findStr "input_size" d with
  | none => (.error (.keyError "input_size"), [])
  | some vIn =>
    match findStr "output_size" d with
    | none => (.error (.keyError "output_size"), [])
    | some vOut =>
      match findStr "hidden_layers" d with
      | none => (.error (.keyError "hidden_layers"), [])
      | some vHid =>
        match vIn, vOut, vHid with
        | .nat nIn, .nat nOut, .list hs =>
          match Network.build nIn nOut hs (1 / 2) z with
          | none => (.error .buildError, [])
          | some m0 =>
            match findStr "state_dict" d with
            | none => (.error (.keyError "state_dict"), [.built])
            | some (.sd sd) =>
              match load_state_dict_post m0 sd with
              | (.ok _, m2) => (.ok m2, [.built, .assigned])
              | (.error e, _) => (.error e, [.built])
            | some _ => (.error .typeError, [.built])
        | _, _, _ => (.error .typeError, [])

/-- The load_checkpoint function of the notebook: its returned model or
raised error. -/
def load_checkpoint (d : PyDict) (z : Nat → Nat → Nat → Nat) :
    Except LoadErr Network :=
  (load_checkpoint_tr d z).1

/-
Modelled from the spec: the byte-level artifact format. The concrete
encoding used by torch.save is not part of the sources; the spec leaves the
encoding to the implementer but fixes the logical schema, that it is
deterministic, and that a truncated stream must fail to deserialize. Bytes
are modelled as natural number symbols; every field is written with an
explicit length so the stream is self describing.
-/

/-- Serialized byte stream of a checkpoint artifact. -/
abbrev Bytes := List Nat

/-- A decoding step: consume a prefix of the stream, return the decoded
value and the unread suffix, or fail. -/
def Rd (α : Type) : Type := Bytes → Option (α × Bytes)

/-- Decoding step that consumes nothing and returns a fixed value. -/
def ppure (a : α) : Rd α := fun bs => some (a, bs)

/-- Decoding step that always fails. -/
def pfail : Rd α := fun _ => none

/-- Sequencing of decoding steps. -/
def pseq (p : Rd α) (f : α → Rd β) : Rd β := fun bs =>
  match p bs with
  | none => none
  | some (a, r) => f a r

/-- Mapping over a decoding step. -/
def pmap (g : α → β) (p : Rd α) : Rd β := pseq p (fun a => ppure (g a))

/-- Read a single symbol. -/
def readOne : Rd Nat
  | [] => none
  | b :: r => some (b, r)

/-- Read exactly n symbols. -/
def readExact (n : Nat) : Rd Bytes := fun bs =>
  if n ≤ bs.length then some (bs.take n, bs.drop n) else none

/-- Run a decoding step n times, collecting the results in order. -/
def pRepeat : Nat → Rd α → Rd (List α)
  | 0, _ => ppure []
  | n + 1, p => pseq p (fun a => pmap (fun l => a :: l) (pRepeat n p))

/-- Encode a natural number as one symbol. -/
def eNat (n : Nat) : Bytes := [n]

/-- Encode a list of naturals with a leading length. -/
def eList (l : List Nat) : Bytes := l.length :: l

/-- Encode a string as the length-prefixed code points of its characters. -/
def eStr (s : String) : Bytes := eList (s.data.map Char.toNat)

/-- Encode a tensor: its shape then its flat data, each length prefixed. -/
def eTensor (t : Tensor) : Bytes := eList t.shape ++ eList t.data

/-- Encode a parameter key as a constructor tag and its index. -/
def ePKey : PKey → Bytes
  | .hiddenWeight i => [0, i]
  | .hiddenBias i => [1, i]
  | .outputWeight => [2]
  | .outputBias => [3]

/-- Encode one snapshot entry. -/
def eEntry (kv : PKey × Tensor) : Bytes := ePKey kv.1 ++ eTensor kv.2

/-- Encode a parameter snapshot with a leading entry count. -/
def eSd (s : StateDict) : Bytes := s.length :: s.flatMap eEntry

/-- Encode a checkpoint dictionary value with a leading type tag. -/
def ePyVal : PyVal → Bytes
  | .nat n => 0 :: eNat n
  | .list l => 1 :: eList l
  | .sd s => 2 :: eSd s

/-- Encode one checkpoint dictionary entry. -/
def eDictEntry (kv : String × PyVal) : Bytes := eStr kv.1 ++ ePyVal kv.2

/-- Encode a checkpoint dictionary: the deterministic save format. -/
def encode (d : PyDict) : Bytes := d.length :: d.flatMap eDictEntry

/-- Decode a length-prefixed list of naturals. -/
def pList : Rd (List Nat) := pseq readOne readExact

/-- Decode a string. -/
def pStr : Rd String := pmap (fun l => String.mk (l.map Char.ofNat)) pList

/-- Decode a tensor. -/
def pTensor : Rd Tensor := pseq pList (fun sh => pmap (fun dt => Tensor.mk sh dt) pList)

/-- Decode a parameter key. -/
def pPKey : Rd PKey :=
  pseq readOne (fun tag =>
    match tag with
    | 0 => pmap PKey.hiddenWeight readOne
    | 1 => pmap PKey.hiddenBias readOne
    | 2 => ppure PKey.outputWeight
    | 3 => ppure PKey.outputBias
    | _ + 4 => pfail)

/-- Decode one snapshot entry. -/
def pEntry : Rd (PKey × Tensor) := pseq pPKey (fun k => pmap (fun t => (k, t)) pTensor)

/-- Decode a parameter snapshot. -/
def pSd : Rd StateDict := pseq readOne (fun n => pRepeat n pEntry)

/-- Decode a checkpoint dictionary value. -/
def pPyVal : Rd PyVal :=
  pseq readOne (fun tag =>
    match tag with
    | 0 => pmap PyVal.nat readOne
    | 1 => pmap PyVal.list pList
    | 2 => pmap PyVal.sd pSd
    | _ + 3 => pfail)

/-- Decode one checkpoint dictionary entry. -/
def pDictEntry : Rd (String × PyVal) :=
  pseq pStr (fun k => pmap (fun v => (k, v)) pPyVal)

/-- Decode a checkpoint dictionary. -/
def pDict : Rd PyDict := pseq readOne (fun n => pRepeat n pDictEntry)

/-- Deserialize an artifact byte stream, requiring the whole stream to be
consumed; any structural corruption yields DeserializationError. -/
def decodeBytes (bs : Bytes) : Except LoadErr PyDict :=
  match pDict bs with
  | some (d, []) => .ok d
  | some (_, _ :: _) => .error .deserializationError
  | none => .error .deserializationError

/-- The save path of the notebook down to bytes: build the checkpoint
dictionary and serialize it. -/
def saveBytes (m : Network) : Bytes := encode (checkpoint m)

/-- The load path of the notebook from bytes: deserialize the artifact and
run load_checkpoint on the resulting dictionary. -/
def loadFromBytes (bs : Bytes) (z : Nat → Nat → Nat → Nat) :
    Except LoadErr Network :=
  match decodeBytes bs with
  | .ok d => load_checkpoint d z
  | .error e => .error e

/-- The parameter keys of the hidden layers from index i, n layers long. -/
def keySeq : Nat → Nat → List PKey
  | _, 0 => []
  | i, n + 1 => PKey.hiddenWeight i :: PKey.hiddenBias i :: keySeq (i + 1) n

/-- The full list of state dict key names of an n hidden layer network, as
the notebook prints them. -/
def claimKeyNames (n : Nat) : List String :=
  (List.range n).flatMap
    (fun i =>
      ["hidden_layers." ++ Nat.repr i ++ ".weight",
       "hidden_layers." ++ Nat.repr i ++ ".bias"])
    ++ ["output.weight", "output.bias"]

/-- The constant initializer, a stand-in for one concrete random draw. -/
def z0 : Nat → Nat → Nat → Nat := fun _ _ _ => 0

/-- A throwaway network used only as an Option default on branches that are
proved unreachable. -/
def junkNet : Network := ⟨[], mkLinear 0 0 [] [], 0⟩

/-- The descriptor of the trained model of the notebook. -/
def D1 : Descriptor := ⟨784, 10, [512, 256, 128], 1 / 2⟩

/-- The incompatible descriptor the notebook loads against. -/
def D2 : Descriptor := ⟨784, 10, [400, 200, 100], 1 / 2⟩

/-- A freshly built model of descriptor D1. -/
def netD1 : Network := (buildD D1 z0).getD junkNet

/-- A freshly built model of descriptor D2. -/
def netD2 : Network := (buildD D2 z0).getD junkNet

/-- A descriptor whose input and output widths differ from the hardcoded
784 and 10 of the checkpoint cell. -/
def D0 : Descriptor := ⟨2, 3, [4], 1 / 2⟩

/-- A freshly built model of descriptor D0. -/
def net0 : Network := (buildD D0 z0).getD junkNet

/-- A descriptor with a dropout rate different from the factory default. -/
def D4 : Descriptor := ⟨784, 10, [3], 1 / 4⟩

/-- A freshly built model of descriptor D4. -/
def net4 : Network := (buildD D4 z0).getD junkNet

/-- A decoding step behaves well on truncated streams: whenever it succeeds
it consumed a definite prefix, its result depends only on that prefix, and
it fails outright on every strict prefix of that prefix. -/
structure Wf (p : Rd α) : Prop where
  split : ∀ bs a r, p bs = some (a, r) →
    ∃ pre, bs = pre ++ r ∧ (∀ rest2, p (pre ++ rest2) = some (a, rest2)) ∧
      ∀ k, k < pre.length → p (pre.take k) = none

/-
State dict machinery lemmas.
-/

theorem map_fst_sdAux (ls : List Linear) : ∀ i : Nat,
    (sdAux i ls).map Prod.fst = keySeq i ls.length := by
  induction ls with
  | nil => intro i; rfl
  | cons l ls ih => intro i; simp [sdAux, keySeq, ih]

theorem findKey_isSome_of_mem (k : PKey) (sd : StateDict)
    (h : k ∈ sd.map Prod.fst) : (findKey k sd).isSome := by
  induction sd with
  | nil => simp at h
  | cons kv rest ih =>
    rw [findKey]
    by_cases hk : k = kv.1
    · simp [hk]
    · simp only [List.map_cons, List.mem_cons] at h
      rcases h with h | h
      · exact absurd h hk
      · simp [hk, ih h]

theorem findKey_sdAux_weight (ls : List Linear) (rest : StateDict) :
    ∀ (i j : Nat) (l : Linear), ls.get? j = some l →
      findKey (PKey.hiddenWeight (i + j)) (sdAux i ls ++ rest) = some l.weight := by
  induction ls with
  | nil => intro i j l h; simp at h
  | cons x xs ih =>
    intro i j l h
    cases j with
    | zero =>
      simp only [List.get?_cons_zero, Option.some.injEq] at h
      subst h
      simp [sdAux, findKey]
    | succ j =>
      simp only [List.get?_cons_succ] at h
      have e : i + (j + 1) = (i + 1) + j := by omega
      have hne1 : PKey.hiddenWeight (i + (j + 1)) ≠ PKey.hiddenWeight i := by
        intro hc
        have := PKey.hiddenWeight.inj hc
        omega
      have hne2 : PKey.hiddenWeight (i + (j + 1)) ≠ PKey.hiddenBias i := by
        intro hc; exact PKey.noConfusion hc
      rw [sdAux, List.cons_append, List.cons_append, findKey, if_neg hne1,
        findKey, if_neg hne2, e]
      exact ih (i + 1) j l h

theorem findKey_sdAux_bias (ls : List Linear) (rest : StateDict) :
    ∀ (i j : Nat) (l : Linear), ls.get? j = some l →
      findKey (PKey.hiddenBias (i + j)) (sdAux i ls ++ rest) = some l.bias := by
  induction ls with
  | nil => intro i j l h; simp at h
  | cons x xs ih =>
    intro i j l h
    cases j with
    | zero =>
      simp only [List.get?_cons_zero, Option.some.injEq] at h
      subst h
      have hne : PKey.hiddenBias (i + 0) ≠ PKey.hiddenWeight i := by
        intro hc; exact PKey.noConfusion hc
      rw [sdAux, List.cons_append, List.cons_append, findKey, if_neg hne,
        findKey, if_pos (by rw [Nat.add_zero])]
    | succ j =>
      simp only [List.get?_cons_succ] at h
      have e : i + (j + 1) = (i + 1) + j := by omega
      have hne1 : PKey.hiddenBias (i + (j + 1)) ≠ PKey.hiddenWeight i := by
        intro hc; exact PKey.noConfusion hc
      have hne2 : PKey.hiddenBias (i + (j + 1)) ≠ PKey.hiddenBias i := by
        intro hc
        have := PKey.hiddenBias.inj hc
        omega
      rw [sdAux, List.cons_append, List.cons_append, findKey, if_neg hne1,
        findKey, if_neg hne2, e]
      exact ih (i + 1) j l h

theorem findKey_sdAux_outW (ls : List Linear) (rest : StateDict) :
    ∀ i : Nat, findKey PKey.outputWeight (sdAux i ls ++ rest) =
      findKey PKey.outputWeight rest := by
  induction ls with
  | nil => intro i; rfl
  | cons x xs ih =>
    intro i
    rw [sdAux, List.cons_append, List.cons_append, findKey,
      if_neg (fun hc => PKey.noConfusion hc), findKey,
      if_neg (fun hc => PKey.noConfusion hc)]
    exact ih (i + 1)

theorem findKey_sdAux_outB (ls : List Linear) (rest : StateDict) :
    ∀ i : Nat, findKey PKey.outputBias (sdAux i ls ++ rest) =
      findKey PKey.outputBias rest := by
  induction ls with
  | nil => intro i; rfl
  | cons x xs ih =>
    intro i
    rw [sdAux, List.cons_append, List.cons_append, findKey,
      if_neg (fun hc => PKey.noConfusion hc), findKey,
      if_neg (fun hc => PKey.noConfusion hc)]
    exact ih (i + 1)

theorem buildAux_length (z : Nat → Nat → Nat → Nat) (dims : List (Nat × Nat)) :
    ∀ i : Nat, (buildAux z i dims).length = dims.length := by
  induction dims with
  | nil => intro i; rfl
  | cons ab rest ih => intro i; simp [buildAux, ih]

theorem buildAux_get? (z : Nat → Nat → Nat → Nat) (dims : List (Nat × Nat)) :
    ∀ i j : Nat, (buildAux z i dims).get? j =
      (dims.get? j).map (fun ab =>
        mkLinear ab.1 ab.2
          ((List.range (ab.2 * ab.1)).map (z (i + j) 0))
          ((List.range ab.2).map (z (i + j) 1))) := by
  induction dims with
  | nil => intro i j; simp [buildAux]
  | cons ab rest ih =>
    intro i j
    cases j with
    | zero => simp [buildAux]
    | succ j =>
      rw [buildAux, List.get?_cons_succ, List.get?_cons_succ, ih (i + 1) j,
        show (i + 1) + j = i + (j + 1) from by omega]

theorem buildAux_map_out (z : Nat → Nat → Nat → Nat) (l : List Nat) :
    ∀ (x : Nat) (i : Nat),
      (buildAux z i (List.zip (x :: l) l)).map (fun lin => lin.out_features) = l := by
  induction l with
  | nil => intro x i; rfl
  | cons a l ih =>
    intro x i
    rw [List.zip_cons_cons, buildAux, List.map_cons]
    exact congrArg (a :: ·) (ih a (i + 1))

theorem assignAux_map_out (sd : StateDict) (ls : List Linear) :
    ∀ i : Nat, (assignAux i ls sd).map (fun lin => lin.out_features) =
      ls.map (fun lin => lin.out_features) := by
  induction ls with
  | nil => intro i; rfl
  | cons l ls ih => intro i; simp [assignAux, ih]

theorem assignAux_length (sd : StateDict) (ls : List Linear) :
    ∀ i : Nat, (assignAux i ls sd).length = ls.length := by
  induction ls with
  | nil => intro i; rfl
  | cons l ls ih => intro i; simp [assignAux, ih]

theorem sdAux_assignAux (sd : StateDict) (ls1 : List Linear) :
    ∀ (ls2 : List Linear) (i : Nat), ls2.length = ls1.length →
      (∀ j l, ls1.get? j = some l →
        findKey (PKey.hiddenWeight (i + j)) sd = some l.weight) →
      (∀ j l, ls1.get? j = some l →
        findKey (PKey.hiddenBias (i + j)) sd = some l.bias) →
      sdAux i (assignAux i ls2 sd) = sdAux i ls1 := by
  induction ls1 with
  | nil =>
    intro ls2 i hlen _ _
    have h2 : ls2 = [] := List.length_eq_zero.mp hlen
    subst h2
    rfl
  | cons x xs ih =>
    intro ls2 i hlen hfw hfb
    cases ls2 with
    | nil => simp at hlen
    | cons y ys =>
      simp only [List.length_cons, Nat.add_right_cancel_iff] at hlen
      have e0w := hfw 0 x (by simp)
      have e0b := hfb 0 x (by simp)
      rw [Nat.add_zero] at e0w e0b
      have htail : sdAux (i + 1) (assignAux (i + 1) ys sd) = sdAux (i + 1) xs := by
        refine ih ys (i + 1) hlen ?_ ?_
        · intro j l h
          have := hfw (j + 1) l (by simpa using h)
          rwa [show i + (j + 1) = (i + 1) + j from by omega] at this
        · intro j l h
          have := hfb (j + 1) l (by simpa using h)
          rwa [show i + (j + 1) = (i + 1) + j from by omega] at this
      rw [assignAux, sdAux, sdAux, e0w, e0b, Option.getD_some, Option.getD_some,
        htail]

theorem assigned_from_sd (sd : StateDict) (ls : List Linear) :
    ∀ i : Nat,
      (∀ k, k ∈ (sdAux i ls).map Prod.fst → (findKey k sd).isSome) →
      ∀ kv ∈ sdAux i (assignAux i ls sd), findKey kv.1 sd = some kv.2 := by
  induction ls with
  | nil => intro i _ kv hkv; simp [assignAux, sdAux] at hkv
  | cons l ls ih =>
    intro i hk kv hkv
    rw [assignAux, sdAux] at hkv
    simp only [List.mem_cons] at hkv
    rcases hkv with hkv | hkv | hkv
    · subst hkv
      obtain ⟨t, ht⟩ := Option.isSome_iff_exists.mp
        (hk (PKey.hiddenWeight i) (by simp [sdAux]))
      simp [ht]
    · subst hkv
      obtain ⟨t, ht⟩ := Option.isSome_iff_exists.mp
        (hk (PKey.hiddenBias i) (by simp [sdAux]))
      simp [ht]
    · refine ih (i + 1) (fun k hmem => hk k ?_) kv hkv
      rw [sdAux, List.map_cons, List.map_cons]
      exact List.mem_cons_of_mem _ (List.mem_cons_of_mem _ hmem)

theorem mism_none_hidden (sd : StateDict) (ls2 : List Linear) :
    ∀ i : Nat,
      (∀ j l2, ls2.get? j = some l2 →
        ∃ t, findKey (PKey.hiddenWeight (i + j)) sd = some t ∧
          t.shape = l2.weight.shape) →
      (∀ j l2, ls2.get? j = some l2 →
        ∃ t, findKey (PKey.hiddenBias (i + j)) sd = some t ∧
          t.shape = l2.bias.shape) →
      ∀ kv ∈ sdAux i ls2, mismFn sd kv = none := by
  induction ls2 with
  | nil => intro i _ _ kv hkv; simp [sdAux] at hkv
  | cons l ls ih =>
    intro i hfw hfb kv hkv
    rw [sdAux] at hkv
    simp only [List.mem_cons] at hkv
    rcases hkv with hkv | hkv | hkv
    · subst hkv
      obtain ⟨t, ht, hts⟩ := hfw 0 l (by simp)
      rw [Nat.add_zero] at ht
      simp [mismFn, ht, hts]
    · subst hkv
      obtain ⟨t, ht, hts⟩ := hfb 0 l (by simp)
      rw [Nat.add_zero] at ht
      simp [mismFn, ht, hts]
    · refine ih (i + 1) ?_ ?_ kv hkv
      · intro j l2 h
        have := hfw (j + 1) l2 (by simpa using h)
        rwa [show i + (j + 1) = (i + 1) + j from by omega] at this
      · intro j l2 h
        have := hfb (j + 1) l2 (by simpa using h)
        rwa [show i + (j + 1) = (i + 1) + j from by omega] at this

theorem build_isSome (input output : Nat) (hidden : List Nat) (p : ℚ)
    (z : Nat → Nat → Nat → Nat) (hne : hidden ≠ []) :
    ∃ m, Network.build input output hidden p z = some m := by
  cases hidden with
  | nil => exact absurd rfl hne
  | cons hh t => exact ⟨_, rfl⟩

theorem build_hidden_ne (input output : Nat) (hidden : List Nat) (p : ℚ)
    (z : Nat → Nat → Nat → Nat) (m : Network)
    (hb : Network.build input output hidden p z = some m) : hidden ≠ [] := by
  cases hidden with
  | nil => simp [Network.build] at hb
  | cons hh t => simp

theorem hiddenSizes_build (input output : Nat) (hidden : List Nat) (p : ℚ)
    (z : Nat → Nat → Nat → Nat) (m : Network)
    (hb : Network.build input output hidden p z = some m) :
    m.hiddenSizes = hidden := by
  cases hidden with
  | nil => simp [Network.build] at hb
  | cons hh t =>
    simp only [Network.build, Option.some.injEq] at hb
    rw [← hb, Network.hiddenSizes]
    exact buildAux_map_out z (hh :: t) input 0

theorem drop_build (input output : Nat) (hidden : List Nat) (p : ℚ)
    (z : Nat → Nat → Nat → Nat) (m : Network)
    (hb : Network.build input output hidden p z = some m) : m.drop_p = p := by
  cases hidden with
  | nil => simp [Network.build] at hb
  | cons hh t =>
    simp only [Network.build, Option.some.injEq] at hb
    rw [← hb]

theorem describe_cons (m : Network) (l : Linear) (ls : List Linear)
    (h : m.hidden_layers = l :: ls) :
    describe m = some ⟨l.in_features, m.output.out_features, m.hiddenSizes, m.drop_p⟩ := by
  have e : describe m =
      (match m.hidden_layers with
        | [] => none
        | l2 :: _ =>
          some ⟨l2.in_features, m.output.out_features, m.hiddenSizes, m.drop_p⟩) := rfl
  rw [e, h]

theorem describe_build (input output : Nat) (hidden : List Nat) (p : ℚ)
    (z : Nat → Nat → Nat → Nat) (m : Network)
    (hb : Network.build input output hidden p z = some m) :
    describe m = some ⟨input, output, hidden, p⟩ := by
  cases hidden with
  | nil => simp [Network.build] at hb
  | cons hh t =>
    have hsz := hiddenSizes_build input output (hh :: t) p z m hb
    have hdp := drop_build input output (hh :: t) p z m hb
    simp only [Network.build, Option.some.injEq] at hb
    have hhl : m.hidden_layers =
        mkLinear input hh ((List.range (hh * input)).map (z 0 0))
            ((List.range hh).map (z 0 1))
          :: buildAux z (0 + 1) (List.zip (hh :: t) t) := by
      rw [← hb]
      show buildAux z 0 (List.zip (input :: hh :: t) (hh :: t)) = _
      rw [List.zip_cons_cons, buildAux]
    have hout : m.output.out_features = output := by
      rw [← hb]
      exact rfl
    rw [describe_cons m _ _ hhl, hsz, hdp, hout]
    exact rfl

theorem assign_drop (m : Network) (sd : StateDict) :
    (m.assign sd).drop_p = m.drop_p := rfl

theorem assign_hiddenSizes (m : Network) (sd : StateDict) :
    (m.assign sd).hiddenSizes = m.hiddenSizes := by
  rw [Network.assign, Network.hiddenSizes, Network.hiddenSizes]
  exact assignAux_map_out sd m.hidden_layers 0

theorem describe_assign (m : Network) (sd : StateDict) :
    describe (m.assign sd) = describe m := by
  cases h : m.hidden_layers with
  | nil =>
    have h2 : (m.assign sd).hidden_layers = [] := by
      rw [Network.assign]
      show assignAux 0 m.hidden_layers sd = []
      rw [h, assignAux]
    have e1 : describe (m.assign sd) = none := by
      have e : describe (m.assign sd) =
          (match (m.assign sd).hidden_layers with
            | [] => none
            | l2 :: _ =>
              some ⟨l2.in_features, (m.assign sd).output.out_features,
                (m.assign sd).hiddenSizes, (m.assign sd).drop_p⟩) := rfl
      rw [e, h2]
    have e2 : describe m = none := by
      have e : describe m =
          (match m.hidden_layers with
            | [] => none
            | l2 :: _ =>
              some ⟨l2.in_features, m.output.out_features, m.hiddenSizes, m.drop_p⟩) := rfl
      rw [e, h]
    rw [e1, e2]
  | cons l ls =>
    have h2 : (m.assign sd).hidden_layers =
        ({ l with
            weight := (findKey (PKey.hiddenWeight 0) sd).getD l.weight,
            bias := (findKey (PKey.hiddenBias 0) sd).getD l.bias })
          :: assignAux (0 + 1) ls sd := by
      rw [Network.assign]
      show assignAux 0 m.hidden_layers sd = _
      rw [h, assignAux]
    rw [describe_cons m l ls h, describe_cons (m.assign sd) _ _ h2,
      assign_hiddenSizes, assign_drop]
    exact rfl

theorem load_post_ok (m1 m2 : Network)
    (hlen : m2.hidden_layers.length = m1.hidden_layers.length)
    (hshape : ∀ j,
      (m1.hidden_layers.get? j).map (fun l => (l.weight.shape, l.bias.shape)) =
        (m2.hidden_layers.get? j).map (fun l => (l.weight.shape, l.bias.shape)))
    (how : m1.output.weight.shape = m2.output.weight.shape)
    (hob : m1.output.bias.shape = m2.output.bias.shape) :
    load_state_dict_post m2 m1.state_dict = (.ok (), m2.assign m1.state_dict) ∧
      (m2.assign m1.state_dict).state_dict = m1.state_dict := by
  have hkeys : m2.state_dict.map Prod.fst = m1.state_dict.map Prod.fst := by
    simp [Network.state_dict, map_fst_sdAux, hlen]
  have hget1 : ∀ j (l2 : Linear), m2.hidden_layers.get? j = some l2 →
      ∃ l1 : Linear, m1.hidden_layers.get? j = some l1 ∧
        l1.weight.shape = l2.weight.shape ∧ l1.bias.shape = l2.bias.shape := by
    intro j l2 hg2
    have hs := hshape j
    rw [hg2] at hs
    cases hg1 : m1.hidden_layers.get? j with
    | none => rw [hg1] at hs; simp at hs
    | some l1 =>
      rw [hg1] at hs
      simp only [Option.map_some', Option.some.injEq, Prod.mk.injEq] at hs
      exact ⟨l1, rfl, hs.1, hs.2⟩
  have hfw1 : ∀ j l1, m1.hidden_layers.get? j = some l1 →
      findKey (PKey.hiddenWeight (0 + j)) m1.state_dict = some l1.weight := by
    intro j l1 hg
    rw [Network.state_dict]
    exact findKey_sdAux_weight m1.hidden_layers _ 0 j l1 hg
  have hfb1 : ∀ j l1, m1.hidden_layers.get? j = some l1 →
      findKey (PKey.hiddenBias (0 + j)) m1.state_dict = some l1.bias := by
    intro j l1 hg
    rw [Network.state_dict]
    exact findKey_sdAux_bias m1.hidden_layers _ 0 j l1 hg
  have hfow : findKey PKey.outputWeight m1.state_dict = some m1.output.weight := by
    rw [Network.state_dict, findKey_sdAux_outW, findKey, if_pos rfl]
  have hfob : findKey PKey.outputBias m1.state_dict = some m1.output.bias := by
    rw [Network.state_dict, findKey_sdAux_outB, findKey,
      if_neg (fun hc => PKey.noConfusion hc), findKey, if_pos rfl]
  have hmiss : missingOf m2 m1.state_dict = [] := by
    rw [missingOf, List.filter_eq_nil_iff]
    intro k hk
    rw [hkeys] at hk
    obtain ⟨t, ht⟩ := Option.isSome_iff_exists.mp (findKey_isSome_of_mem k _ hk)
    simp [ht]
  have hunexp : unexpectedOf m2 m1.state_dict = [] := by
    rw [unexpectedOf, List.filter_eq_nil_iff]
    intro k hk
    rw [← hkeys] at hk
    obtain ⟨t, ht⟩ := Option.isSome_iff_exists.mp (findKey_isSome_of_mem k _ hk)
    simp [ht]
  have hmism : mismatchOf m2 m1.state_dict = [] := by
    rw [mismatchOf, List.filterMap_eq_nil_iff]
    intro kv hkv
    rw [Network.state_dict, List.mem_append] at hkv
    rcases hkv with hkv | hkv
    · refine mism_none_hidden _ m2.hidden_layers 0 ?_ ?_ kv hkv
      · intro j l2 hg2
        obtain ⟨l1, hg1, hsw, _⟩ := hget1 j l2 hg2
        exact ⟨l1.weight, hfw1 j l1 hg1, hsw⟩
      · intro j l2 hg2
        obtain ⟨l1, hg1, _, hsb⟩ := hget1 j l2 hg2
        exact ⟨l1.bias, hfb1 j l1 hg1, hsb⟩
    · simp only [List.mem_cons, List.not_mem_nil, or_false] at hkv
      rcases hkv with rfl | rfl
      · simp [mismFn, hfow, how]
      · simp [mismFn, hfob, hob]
  have hassigned : (m2.assign m1.state_dict).state_dict = m1.state_dict := by
    have hmain : sdAux 0 (assignAux 0 m2.hidden_layers m1.state_dict) =
        sdAux 0 m1.hidden_layers := by
      refine sdAux_assignAux m1.state_dict m1.hidden_layers m2.hidden_layers 0 hlen ?_ ?_
      · exact fun j l h => hfw1 j l h
      · exact fun j l h => hfb1 j l h
    rw [Network.assign, Network.state_dict]
    simp only [hmain, hfow, hfob, Option.getD_some]
    rw [Network.state_dict]
  refine ⟨?_, hassigned⟩
  rw [load_state_dict_post, if_pos ⟨hmiss, hunexp, hmism⟩]

theorem build_post_ok (input output : Nat) (hidden : List Nat) (p1 p2 : ℚ)
    (z1 z2 : Nat → Nat → Nat → Nat) (m1 m2 : Network)
    (h1 : Network.build input output hidden p1 z1 = some m1)
    (h2 : Network.build input output hidden p2 z2 = some m2) :
    load_state_dict_post m2 m1.state_dict = (.ok (), m2.assign m1.state_dict) ∧
      (m2.assign m1.state_dict).state_dict = m1.state_dict := by
  cases hidden with
  | nil => simp [Network.build] at h1
  | cons hh t =>
    simp only [Network.build, Option.some.injEq] at h1 h2
    refine load_post_ok m1 m2 ?_ ?_ ?_ ?_
    · rw [← h1, ← h2]
      show (buildAux z2 0 _).length = (buildAux z1 0 _).length
      rw [buildAux_length, buildAux_length]
    · intro j
      rw [← h1, ← h2]
      show ((buildAux z1 0 (List.zip (input :: hh :: t) (hh :: t))).get? j).map
          (fun l => (l.weight.shape, l.bias.shape)) =
        ((buildAux z2 0 (List.zip (input :: hh :: t) (hh :: t))).get? j).map
          (fun l => (l.weight.shape, l.bias.shape))
      rw [buildAux_get?, buildAux_get?]
      cases (List.zip (input :: hh :: t) (hh :: t)).get? j with
      | none => rfl
      | some ab => rfl
    · rw [← h1, ← h2]
      exact rfl
    · rw [← h1, ← h2]
      exact rfl

theorem post_error_unchanged (m : Network) (sd : StateDict) (e : LoadErr)
    (h : (load_state_dict_post m sd).1 = .error e) :
    (load_state_dict_post m sd).2 = m := by
  by_cases hc : missingOf m sd = [] ∧ unexpectedOf m sd = [] ∧ mismatchOf m sd = []
  · rw [load_state_dict_post, if_pos hc] at h
    exact absurd h (by simp)
  · rw [load_state_dict_post, if_neg hc]

theorem post_ok_assigned (m : Network) (sd : StateDict)
    (h : (load_state_dict_post m sd).1 = .ok ()) :
    ∀ kv ∈ (load_state_dict_post m sd).2.state_dict, findKey kv.1 sd = some kv.2 := by
  by_cases hc : missingOf m sd = [] ∧ unexpectedOf m sd = [] ∧ mismatchOf m sd = []
  case neg =>
    rw [load_state_dict_post, if_neg hc] at h
    exact absurd h (by simp)
  case pos =>
    have hsome : ∀ k, k ∈ m.state_dict.map Prod.fst → (findKey k sd).isSome := by
      intro k hk
      cases hfk : findKey k sd with
      | some t => simp
      | none =>
        have hmem : k ∈ missingOf m sd := by
          rw [missingOf]
          exact List.mem_filter.mpr ⟨hk, by simp [hfk]⟩
        rw [hc.1] at hmem
        simp at hmem
    rw [load_state_dict_post, if_pos hc]
    intro kv hkv
    have hkv2 : kv ∈ sdAux 0 (assignAux 0 m.hidden_layers sd) ++
        [(PKey.outputWeight, (findKey PKey.outputWeight sd).getD m.output.weight),
         (PKey.outputBias, (findKey PKey.outputBias sd).getD m.output.bias)] := hkv
    rw [List.mem_append] at hkv2
    rcases hkv2 with hkv2 | hkv2
    · refine assigned_from_sd sd m.hidden_layers 0 ?_ kv hkv2
      intro k hk
      refine hsome k ?_
      rw [Network.state_dict, List.map_append]
      exact List.mem_append_left _ hk
    · simp only [List.mem_cons, List.not_mem_nil, or_false] at hkv2
      rcases hkv2 with rfl | rfl
      · obtain ⟨t, ht⟩ := Option.isSome_iff_exists.mp
          (hsome PKey.outputWeight (by
            rw [Network.state_dict, List.map_append]
            exact List.mem_append_right _ (by simp)))
        simp [ht]
      · obtain ⟨t, ht⟩ := Option.isSome_iff_exists.mp
          (hsome PKey.outputBias (by
            rw [Network.state_dict, List.map_append]
            exact List.mem_append_right _ (by simp)))
        simp [ht]

theorem tr_keyError (d : PyDict) (z : Nat → Nat → Nat → Nat)
    (h : findStr "input_size" d = none ∨ findStr "output_size" d = none ∨
      findStr "hidden_layers" d = none) :
    ∃ k, (k = "input_size" ∨ k = "output_size" ∨ k = "hidden_layers") ∧
      load_checkpoint_tr d z = (.error (.keyError k), []) := by
  rcases hf1 : findStr "input_size" d with _ | v1
  · exact ⟨"input_size", by simp, by simp [load_checkpoint_tr, hf1]⟩
  rcases hf2 : findStr "output_size" d with _ | v2
  · exact ⟨"output_size", by simp, by simp [load_checkpoint_tr, hf1, hf2]⟩
  rcases hf3 : findStr "hidden_layers" d with _ | v3
  · exact ⟨"hidden_layers", by simp, by simp [load_checkpoint_tr, hf1, hf2, hf3]⟩
  rw [hf1, hf2, hf3] at h
  simp at h

theorem tr_error_no_assign (d : PyDict) (z : Nat → Nat → Nat → Nat)
    (e : LoadErr) (h : (load_checkpoint_tr d z).1 = .error e) :
    Ev.assigned ∉ (load_checkpoint_tr d z).2 := by
  rcases hf1 : findStr "input_size" d with _ | v1
  · simp only [load_checkpoint_tr, hf1]
    decide
  rcases hf2 : findStr "output_size" d with _ | v2
  · simp only [load_checkpoint_tr, hf1, hf2]
    decide
  rcases hf3 : findStr "hidden_layers" d with _ | v3
  · simp only [load_checkpoint_tr, hf1, hf2, hf3]
    decide
  cases v1 with
  | list l1 =>
    simp only [load_checkpoint_tr, hf1, hf2, hf3]
    decide
  | sd s1 =>
    simp only [load_checkpoint_tr, hf1, hf2, hf3]
    decide
  | nat n1 =>
    cases v2 with
    | list l2 =>
      simp only [load_checkpoint_tr, hf1, hf2, hf3]
      decide
    | sd s2 =>
      simp only [load_checkpoint_tr, hf1, hf2, hf3]
      decide
    | nat n2 =>
      cases v3 with
      | nat n3 =>
        simp only [load_checkpoint_tr, hf1, hf2, hf3]
        decide
      | sd s3 =>
        simp only [load_checkpoint_tr, hf1, hf2, hf3]
        decide
      | list l3 =>
        rcases hbv : Network.build n1 n2 l3 (1 / 2) z with _ | m0
        · simp only [load_checkpoint_tr, hf1, hf2, hf3, hbv]
          decide
        rcases hf4 : findStr "state_dict" d with _ | v4
        · simp only [load_checkpoint_tr, hf1, hf2, hf3, hbv, hf4]
          decide
        cases v4 with
        | nat n4 =>
          simp only [load_checkpoint_tr, hf1, hf2, hf3, hbv, hf4]
          decide
        | list l4 =>
          simp only [load_checkpoint_tr, hf1, hf2, hf3, hbv, hf4]
          decide
        | sd sd0 =>
          rcases hp : load_state_dict_post m0 sd0 with ⟨r, mp⟩
          cases r with
          | ok u =>
            simp only [load_checkpoint_tr, hf1, hf2, hf3, hbv, hf4, hp] at h
            exact absurd h (by simp)
          | error e2 =>
            simp only [load_checkpoint_tr, hf1, hf2, hf3, hbv, hf4, hp]
            decide

theorem load_checkpoint_build (D : Descriptor) (z z2 : Nat → Nat → Nat → Nat)
    (m : Network) (h784 : D.input_size = 784) (h10 : D.output_size = 10)
    (hb : buildD D z = some m) :
    ∃ m2, load_checkpoint_tr (checkpoint m) z2 =
        (.ok (m2.assign m.state_dict), [.built, .assigned]) ∧
      Network.build 784 10 D.hidden_sizes (1 / 2) z2 = some m2 ∧
      (m2.assign m.state_dict).state_dict = m.state_dict := by
  have hne : D.hidden_sizes ≠ [] := build_hidden_ne _ _ _ _ _ _ hb
  obtain ⟨m2, hb2⟩ := build_isSome 784 10 D.hidden_sizes (1 / 2) z2 hne
  have hsz : m.hiddenSizes = D.hidden_sizes := hiddenSizes_build _ _ _ _ _ _ hb
  have hb2d := hb2
  rw [← h784, ← h10] at hb2d
  obtain ⟨hpost, hsd⟩ :=
    build_post_ok D.input_size D.output_size D.hidden_sizes D.drop_p (1 / 2)
      z z2 m m2 hb hb2d
  refine ⟨m2, ?_, hb2, hsd⟩
  have hf1 : findStr "input_size" (checkpoint m) = some (.nat 784) := rfl
  have hf2 : findStr "output_size" (checkpoint m) = some (.nat 10) := rfl
  have hf3 : findStr "hidden_layers" (checkpoint m) = some (.list m.hiddenSizes) := rfl
  have hf4 : findStr "state_dict" (checkpoint m) = some (.sd m.state_dict) := rfl
  have hbuild : Network.build 784 10 m.hiddenSizes (1 / 2) z2 = some m2 := by
    rw [hsz]
    exact hb2
  simp only [load_checkpoint_tr, hf1, hf2, hf3, hf4, hbuild, hpost]

/-
Codec lemmas: every decoding step is well formed, and decoding inverts
encoding.
-/

theorem wf_ppure (a : α) : Wf (ppure a) := by
  constructor
  intro bs b r h
  simp only [ppure, Option.some.injEq, Prod.mk.injEq] at h
  obtain ⟨rfl, rfl⟩ := h
  exact ⟨[], rfl, fun rest2 => rfl, fun k hk => absurd hk (by simp)⟩

theorem wf_pfail : Wf (pfail : Rd α) := by
  constructor
  intro bs a r h
  simp [pfail] at h

theorem wf_readOne : Wf readOne := by
  constructor
  intro bs a r h
  cases bs with
  | nil => simp [readOne] at h
  | cons b bs2 =>
    simp only [readOne, Option.some.injEq, Prod.mk.injEq] at h
    obtain ⟨rfl, rfl⟩ := h
    refine ⟨[b], rfl, fun rest2 => rfl, ?_⟩
    intro k hk
    have hk0 : k = 0 := by simpa using hk
    subst hk0
    rfl

theorem wf_readExact (n : Nat) : Wf (readExact n) := by
  constructor
  intro bs a r h
  by_cases hn : n ≤ bs.length
  · rw [readExact, if_pos hn] at h
    simp only [Option.some.injEq, Prod.mk.injEq] at h
    obtain ⟨rfl, rfl⟩ := h
    have hlen : (bs.take n).length = n := by
      rw [List.length_take]
      omega
    refine ⟨bs.take n, (List.take_append_drop n bs).symm, ?_, ?_⟩
    · intro rest2
      rw [readExact, if_pos (by rw [List.length_append, hlen]; omega),
        List.take_left' hlen, List.drop_left' hlen]
    · intro k hk
      rw [hlen] at hk
      have hklen : ((bs.take n).take k).length = k := by
        rw [List.length_take, List.length_take]
        omega
      rw [readExact, if_neg (by rw [hklen]; omega)]
  · rw [readExact, if_neg hn] at h
    simp at h

theorem wf_pseq (p : Rd α) (f : α → Rd β) (hp : Wf p) (hf : ∀ a, Wf (f a)) :
    Wf (pseq p f) := by
  constructor
  intro bs c r h
  rw [pseq] at h
  cases hpb : p bs with
  | none =>
    rw [hpb] at h
    simp at h
  | some ar =>
    obtain ⟨a, r1⟩ := ar
    rw [hpb] at h
    simp only at h
    obtain ⟨pre1, hbs1, hext1, htr1⟩ := hp.split bs a r1 hpb
    obtain ⟨pre2, hbs2, hext2, htr2⟩ := (hf a).split r1 c r h
    refine ⟨pre1 ++ pre2, ?_, ?_, ?_⟩
    · rw [hbs1, hbs2, List.append_assoc]
    · intro rest2
      rw [pseq, List.append_assoc, hext1 (pre2 ++ rest2)]
      exact hext2 rest2
    · intro k hk
      rw [List.length_append] at hk
      by_cases hk1 : k < pre1.length
      · rw [pseq, List.take_append_of_le_length (by omega), htr1 k hk1]
      · have hk1b : pre1.length ≤ k := by omega
        rw [pseq, List.take_append_eq_append_take, List.take_of_length_le hk1b,
          hext1 (pre2.take (k - pre1.length))]
        exact htr2 (k - pre1.length) (by omega)

theorem wf_pmap (g : α → β) (p : Rd α) (hp : Wf p) : Wf (pmap g p) :=
  wf_pseq p _ hp (fun a => wf_ppure (g a))

theorem wf_pRepeat (p : Rd α) (hp : Wf p) : ∀ n, Wf (pRepeat n p) := by
  intro n
  induction n with
  | zero => exact wf_ppure []
  | succ n ih => exact wf_pseq p _ hp (fun a => wf_pmap _ _ ih)

theorem wf_pList : Wf pList :=
  wf_pseq readOne readExact wf_readOne (fun n => wf_readExact n)

theorem wf_pStr : Wf pStr := wf_pmap _ _ wf_pList

theorem wf_pTensor : Wf pTensor :=
  wf_pseq pList _ wf_pList (fun _ => wf_pmap _ _ wf_pList)

theorem wf_pPKey : Wf pPKey := by
  refine wf_pseq readOne _ wf_readOne (fun tag => ?_)
  match tag with
  | 0 => exact wf_pmap _ _ wf_readOne
  | 1 => exact wf_pmap _ _ wf_readOne
  | 2 => exact wf_ppure _
  | 3 => exact wf_ppure _
  | _ + 4 => exact wf_pfail

theorem wf_pEntry : Wf pEntry :=
  wf_pseq pPKey _ wf_pPKey (fun _ => wf_pmap _ _ wf_pTensor)

theorem wf_pSd : Wf pSd :=
  wf_pseq readOne _ wf_readOne (fun n => wf_pRepeat pEntry wf_pEntry n)

theorem wf_pPyVal : Wf pPyVal := by
  refine wf_pseq readOne _ wf_readOne (fun tag => ?_)
  match tag with
  | 0 => exact wf_pmap _ _ wf_readOne
  | 1 => exact wf_pmap _ _ wf_pList
  | 2 => exact wf_pmap _ _ wf_pSd
  | _ + 3 => exact wf_pfail

theorem wf_pDictEntry : Wf pDictEntry :=
  wf_pseq pStr _ wf_pStr (fun _ => wf_pmap _ _ wf_pPyVal)

theorem wf_pDict : Wf pDict :=
  wf_pseq readOne _ wf_readOne (fun n => wf_pRepeat pDictEntry wf_pDictEntry n)

theorem rt_pmap (g : α → β) (p : Rd α) (x rest : Bytes) (a : α)
    (h : p (x ++ rest) = some (a, rest)) :
    pmap g p (x ++ rest) = some (g a, rest) := by
  rw [pmap, pseq, h]
  rfl

theorem rt_pseq (p : Rd α) (f : α → Rd β) (x y rest : Bytes) (a : α) (b : β)
    (h1 : p (x ++ (y ++ rest)) = some (a, y ++ rest))
    (h2 : f a (y ++ rest) = some (b, rest)) :
    pseq p f ((x ++ y) ++ rest) = some (b, rest) := by
  rw [pseq, List.append_assoc, h1]
  exact h2

theorem rt_pList (l : List Nat) (rest : Bytes) :
    pList (eList l ++ rest) = some (l, rest) := by
  show readExact l.length (l ++ rest) = some (l, rest)
  rw [readExact, if_pos (by rw [List.length_append]; omega),
    List.take_left, List.drop_left]

theorem rt_pStr (s : String) (rest : Bytes) :
    pStr (eStr s ++ rest) = some (s, rest) := by
  have h := rt_pmap (fun l => String.mk (l.map Char.ofNat)) pList
    (eList (s.data.map Char.toNat)) rest (s.data.map Char.toNat)
    (rt_pList _ _)
  have he : (s.data.map Char.toNat).map Char.ofNat = s.data := by
    rw [List.map_map]
    simp [Function.comp_def]
  rw [pStr]
  rw [show eStr s = eList (s.data.map Char.toNat) from rfl]
  rw [h]
  show some (String.mk ((s.data.map Char.toNat).map Char.ofNat), rest) = some (s, rest)
  rw [he]

theorem rt_pTensor (t : Tensor) (rest : Bytes) :
    pTensor (eTensor t ++ rest) = some (t, rest) := by
  show pseq pList (fun sh => pmap (fun dt => Tensor.mk sh dt) pList)
    ((eList t.shape ++ eList t.data) ++ rest) = some (t, rest)
  exact rt_pseq _ _ _ _ _ t.shape t (rt_pList _ _)
    (rt_pmap _ _ _ _ t.data (rt_pList _ _))

theorem rt_pPKey (k : PKey) (rest : Bytes) :
    pPKey (ePKey k ++ rest) = some (k, rest) := by
  cases k <;> rfl

theorem rt_pEntry (kv : PKey × Tensor) (rest : Bytes) :
    pEntry (eEntry kv ++ rest) = some (kv, rest) := by
  show pseq pPKey (fun k => pmap (fun t => (k, t)) pTensor)
    ((ePKey kv.1 ++ eTensor kv.2) ++ rest) = some (kv, rest)
  exact rt_pseq _ _ _ _ _ kv.1 kv (rt_pPKey _ _)
    (rt_pmap _ _ _ _ kv.2 (rt_pTensor _ _))

theorem rt_pRepeat (p : Rd α) (e : α → Bytes)
    (hrt : ∀ x rest, p (e x ++ rest) = some (x, rest)) (xs : List α)
    (rest : Bytes) :
    pRepeat xs.length p ((xs.flatMap e) ++ rest) = some (xs, rest) := by
  induction xs with
  | nil => rfl
  | cons x xs ih =>
    show pseq p (fun a => pmap (fun l => a :: l) (pRepeat xs.length p))
      ((e x ++ xs.flatMap e) ++ rest) = some (x :: xs, rest)
    exact rt_pseq _ _ _ _ _ x (x :: xs) (hrt x _)
      (rt_pmap _ _ _ _ xs ih)

theorem rt_pSd (s : StateDict) (rest : Bytes) :
    pSd (eSd s ++ rest) = some (s, rest) := by
  show pseq readOne (fun n => pRepeat n pEntry)
    (([s.length] ++ s.flatMap eEntry) ++ rest) = some (s, rest)
  exact rt_pseq _ _ _ _ _ s.length s rfl
    (rt_pRepeat pEntry eEntry rt_pEntry s rest)

theorem rt_pPyVal (v : PyVal) (rest : Bytes) :
    pPyVal (ePyVal v ++ rest) = some (v, rest) := by
  cases v with
  | nat n => rfl
  | list l =>
    show pseq readOne _ (([1] ++ eList l) ++ rest) = some (PyVal.list l, rest)
    exact rt_pseq _ _ _ _ _ 1 (PyVal.list l) rfl
      (rt_pmap _ _ _ _ l (rt_pList _ _))
  | sd s =>
    show pseq readOne _ (([2] ++ eSd s) ++ rest) = some (PyVal.sd s, rest)
    exact rt_pseq _ _ _ _ _ 2 (PyVal.sd s) rfl
      (rt_pmap _ _ _ _ s (rt_pSd _ _))

theorem rt_pDictEntry (kv : String × PyVal) (rest : Bytes) :
    pDictEntry (eDictEntry kv ++ rest) = some (kv, rest) := by
  show pseq pStr (fun k => pmap (fun v => (k, v)) pPyVal)
    ((eStr kv.1 ++ ePyVal kv.2) ++ rest) = some (kv, rest)
  exact rt_pseq _ _ _ _ _ kv.1 kv (rt_pStr _ _)
    (rt_pmap _ _ _ _ kv.2 (rt_pPyVal _ _))

theorem rt_pDict (d : PyDict) (rest : Bytes) :
    pDict (encode d ++ rest) = some (d, rest) := by
  show pseq readOne (fun n => pRepeat n pDictEntry)
    (([d.length] ++ d.flatMap eDictEntry) ++ rest) = some (d, rest)
  exact rt_pseq _ _ _ _ _ d.length d rfl
    (rt_pRepeat pDictEntry eDictEntry rt_pDictEntry d rest)

theorem decode_encode (d : PyDict) : decodeBytes (encode d) = .ok d := by
  have h := rt_pDict d []
  rw [List.append_nil] at h
  rw [decodeBytes, h]

theorem decode_trunc (d : PyDict) (k : Nat) (hk : k < (encode d).length) :
    pDict ((encode d).take k) = none := by
  have h := rt_pDict d []
  rw [List.append_nil] at h
  obtain ⟨pre, hpre, _, htr⟩ := wf_pDict.split (encode d) d [] h
  rw [List.append_nil] at hpre
  rw [hpre] at hk ⊢
  exact htr k hk

theorem decodeBytes_trunc (d : PyDict) (k : Nat) (hk : k < (encode d).length) :
    decodeBytes ((encode d).take k) = .error .deserializationError := by
  rw [decodeBytes, decode_trunc d k hk]

theorem sdAux_length (ls : List Linear) : ∀ i : Nat,
    (sdAux i ls).length = 2 * ls.length := by
  induction ls with
  | nil => intro i; rfl
  | cons l ls ih =>
    intro i
    rw [sdAux, List.length_cons, List.length_cons, ih (i + 1), List.length_cons]
    omega

theorem keySeq_render (n : Nat) : ∀ i : Nat,
    (keySeq i n).map PKey.render =
      (List.range' i n).flatMap (fun j =>
        ["hidden_layers." ++ Nat.repr j ++ ".weight",
         "hidden_layers." ++ Nat.repr j ++ ".bias"]) := by
  induction n with
  | zero => intro i; rfl
  | succ n ih =>
    intro i
    rw [keySeq, List.map_cons, List.map_cons, ih (i + 1)]
    rfl

/-
Claim theorems.
-/

/-- C1, counterexample. The claim asserts a save and load round trip for
every factory-built model, but the checkpoint cell hardcodes input_size 784
and output_size 10. For the model built from descriptor D0 with input width
2 and output width 3, loading the saved artifact rebuilds a 784 by 10
network and fails with the shape mismatch error below instead of returning
a model with the saved snapshot. -/
theorem C1_counterexample :
    buildD D0 z0 = some net0 ∧
    loadFromBytes (saveBytes net0) z0 =
      .error (.loadError [] []
        [(.hiddenWeight 0, [4, 2], [4, 784]),
         (.outputWeight, [3, 4], [10, 4]),
         (.outputBias, [3], [10])]) :=
  ⟨rfl, rfl⟩

/-- C1, amended. For every model built by the factory from a descriptor
whose input width is 784 and output width is 10 (the values the checkpoint
cell hardcodes), saving to bytes and immediately loading yields a model
whose parameter snapshot has exactly the same keys as the snapshot of the
source model and identical tensor values for every key. -/
theorem C1_roundtrip (D : Descriptor) (z z2 : Nat → Nat → Nat → Nat)
    (h784 : D.input_size = 784) (h10 : D.output_size = 10)
    (hne : D.hidden_sizes ≠ []) :
    ∃ m m2, buildD D z = some m ∧
      loadFromBytes (saveBytes m) z2 = .ok m2 ∧
      m2.state_dict = m.state_dict := by
  obtain ⟨m, hb⟩ :=
    build_isSome D.input_size D.output_size D.hidden_sizes D.drop_p z hne
  obtain ⟨mf, htr, _, hsd⟩ := load_checkpoint_build D z z2 m h784 h10 hb
  refine ⟨m, mf.assign m.state_dict, hb, ?_, hsd⟩
  rw [loadFromBytes, saveBytes, decode_encode]
  show load_checkpoint (checkpoint m) z2 = .ok (mf.assign m.state_dict)
  rw [load_checkpoint, htr]

/-- C1, witness for the amended theorem at a concrete descriptor. -/
theorem C1_roundtrip_witness :
    ∃ m m2, buildD ⟨784, 10, [1], 1 / 2⟩ z0 = some m ∧
      loadFromBytes (saveBytes m) z0 = .ok m2 ∧
      m2.state_dict = m.state_dict :=
  C1_roundtrip ⟨784, 10, [1], 1 / 2⟩ z0 z0 rfl rfl (by decide)

/-- C2, counterexample. Loading the snapshot of the D1 model into the D2
model does enumerate exactly seven mismatched keys, but their names carry
the prefix hidden_layers, not hidden as the claim states. -/
theorem C2_counterexample :
    buildD D1 z0 = some netD1 ∧ buildD D2 z0 = some netD2 ∧
    (mismatchOf netD2 netD1.state_dict).map (fun x => x.1.render) =
      ["hidden_layers.0.weight", "hidden_layers.0.bias",
       "hidden_layers.1.weight", "hidden_layers.1.bias",
       "hidden_layers.2.weight", "hidden_layers.2.bias",
       "output.weight"] ∧
    ("hidden_layers.0.weight" : String) ≠ "hidden.0.weight" :=
  ⟨rfl, rfl, rfl, by decide⟩

/-- C2, amended. Loading a snapshot saved from the model of descriptor
D1 = (784, 10, [512, 256, 128], 0.5) into a freshly built model of
descriptor D2 = (784, 10, [400, 200, 100], 0.5) fails with the error that
enumerates exactly the seven mismatched keys hidden_layers.0.weight,
hidden_layers.0.bias, hidden_layers.1.weight, hidden_layers.1.bias,
hidden_layers.2.weight, hidden_layers.2.bias and output.weight, each with
the shape found in the checkpoint and the shape of the current model, in
this order. -/
theorem C2_shape_mismatch :
    load_state_dict netD2 netD1.state_dict =
      .error (.loadError [] []
        [(.hiddenWeight 0, [512, 784], [400, 784]),
         (.hiddenBias 0, [512], [400]),
         (.hiddenWeight 1, [256, 512], [200, 400]),
         (.hiddenBias 1, [256], [200]),
         (.hiddenWeight 2, [128, 256], [100, 200]),
         (.hiddenBias 2, [128], [100]),
         (.outputWeight, [10, 128], [10, 100])]) :=
  rfl

/-- C3. All key-set and shape validation of a load runs before any
parameter assignment: on a validation failure the call reports the error
and the model state after the call equals the freshly built model, with no
parameter taken from the snapshot; on success every parameter of the
returned model is the snapshot tensor for its key; and a failing
load_checkpoint never passes the assignment milestone, so a half-assigned
model is not observable by its caller. -/
theorem C3_all_or_nothing :
    (∀ (m : Network) (sd : StateDict) (e : LoadErr),
        (load_state_dict_post m sd).1 = .error e →
          (load_state_dict_post m sd).2 = m) ∧
    (∀ (m : Network) (sd : StateDict),
        (load_state_dict_post m sd).1 = .ok () →
          ∀ kv ∈ (load_state_dict_post m sd).2.state_dict,
            findKey kv.1 sd = some kv.2) ∧
    (∀ (d : PyDict) (z : Nat → Nat → Nat → Nat) (e : LoadErr),
        (load_checkpoint_tr d z).1 = .error e →
          Ev.assigned ∉ (load_checkpoint_tr d z).2) :=
  ⟨post_error_unchanged, post_ok_assigned, tr_error_no_assign⟩

/-- C3, witness: loading an empty snapshot into the two-parameter junk
network fails and leaves the network unchanged. -/
theorem C3_all_or_nothing_witness :
    (load_state_dict_post junkNet []).2 = junkNet :=
  C3_all_or_nothing.1 junkNet []
    (.loadError [.outputWeight, .outputBias] [] []) rfl

/-- C4, counterexample. The persisted checkpoint dictionary carries only
input_size, output_size, hidden_layers and the snapshot: no dropout field.
Saving the model built from descriptor D4 with dropout 1/4 and loading it
back yields a model with the factory default dropout 1/2, so the rebuilt
model does not reproduce the saved dropout configuration. -/
theorem C4_counterexample :
    buildD D4 z0 = some net4 ∧ net4.drop_p = 1 / 4 ∧
    (checkpoint net4).map Prod.fst =
      ["input_size", "output_size", "hidden_layers", "state_dict"] ∧
    (load_checkpoint (checkpoint net4) z0).map Network.drop_p = .ok (1 / 2) ∧
    (load_checkpoint (checkpoint net4) z0).map Network.drop_p ≠ .ok net4.drop_p := by
  have hload : (load_checkpoint (checkpoint net4) z0).map Network.drop_p =
      .ok (1 / 2) := rfl
  refine ⟨rfl, rfl, rfl, hload, ?_⟩
  rw [hload]
  intro hc
  have h2 := Except.ok.inj hc
  norm_num [show net4.drop_p = 1 / 4 from rfl] at h2

/-- C4, amended. The persisted checkpoint descriptor records exactly three
architecture hyperparameters, input width 784, output width 10 and the
ordered hidden width list, plus the snapshot, and load rebuilds from it a
model of the same layer architecture whose dropout is the factory default
1/2 rather than the saved dropout. -/
theorem C4_descriptor_fields (D : Descriptor) (z z2 : Nat → Nat → Nat → Nat)
    (h784 : D.input_size = 784) (h10 : D.output_size = 10)
    (hne : D.hidden_sizes ≠ []) :
    ∃ m m2, buildD D z = some m ∧
      (checkpoint m).map Prod.fst =
        ["input_size", "output_size", "hidden_layers", "state_dict"] ∧
      findStr "input_size" (checkpoint m) = some (.nat 784) ∧
      findStr "output_size" (checkpoint m) = some (.nat 10) ∧
      findStr "hidden_layers" (checkpoint m) = some (.list D.hidden_sizes) ∧
      load_checkpoint (checkpoint m) z2 = .ok m2 ∧
      describe m2 = some ⟨784, 10, D.hidden_sizes, 1 / 2⟩ := by
  obtain ⟨m, hb⟩ :=
    build_isSome D.input_size D.output_size D.hidden_sizes D.drop_p z hne
  have hsz : m.hiddenSizes = D.hidden_sizes := hiddenSizes_build _ _ _ _ _ _ hb
  obtain ⟨mf, htr, hbf, _⟩ := load_checkpoint_build D z z2 m h784 h10 hb
  refine ⟨m, mf.assign m.state_dict, hb, rfl, rfl, rfl, ?_, ?_, ?_⟩
  · rw [show findStr "hidden_layers" (checkpoint m) =
      some (.list m.hiddenSizes) from rfl, hsz]
  · rw [load_checkpoint, htr]
  · rw [describe_assign]
    exact describe_build _ _ _ _ _ _ hbf

/-- C4, witness for the amended theorem at a concrete descriptor with a
nondefault dropout rate. -/
theorem C4_descriptor_fields_witness :
    ∃ m m2, buildD ⟨784, 10, [1], 1 / 4⟩ z0 = some m ∧
      (checkpoint m).map Prod.fst =
        ["input_size", "output_size", "hidden_layers", "state_dict"] ∧
      findStr "input_size" (checkpoint m) = some (.nat 784) ∧
      findStr "output_size" (checkpoint m) = some (.nat 10) ∧
      findStr "hidden_layers" (checkpoint m) = some (.list [1]) ∧
      load_checkpoint (checkpoint m) z0 = .ok m2 ∧
      describe m2 = some ⟨784, 10, [1], 1 / 2⟩ :=
  C4_descriptor_fields ⟨784, 10, [1], 1 / 4⟩ z0 z0 rfl rfl (by decide)

/-- C5. For every valid descriptor D, describing the model the factory
builds from D (reading the input width off the first hidden layer, the
output width off the output layer, the hidden widths in forward order and
the dropout rate off the live model) returns exactly D. -/
theorem C5_describe_build (D : Descriptor) (z : Nat → Nat → Nat → Nat)
    (hv : D.valid) : (buildD D z).bind describe = some D := by
  obtain ⟨_, _, hne, _, _, _⟩ := hv
  obtain ⟨m, hb⟩ :=
    build_isSome D.input_size D.output_size D.hidden_sizes D.drop_p z hne
  rw [show buildD D z = some m from hb]
  show describe m = some D
  exact describe_build _ _ _ _ _ _ hb

/-- C5, witness at the descriptor of the trained notebook model. -/
theorem C5_describe_build_witness : (buildD D1 z0).bind describe = some D1 :=
  C5_describe_build D1 z0
    (by refine ⟨by decide, by decide, by decide, by decide, ?_, ?_⟩ <;> norm_num [D1])

/-- C6. If the snapshot lacks any parameter key the factory-built model
exposes, load_state_dict fails with the error whose missing-key list
contains that key, rather than returning a model in which that parameter
silently keeps its random initialization. -/
theorem C6_missing_key (m : Network) (sd : StateDict) (k : PKey)
    (hk : k ∈ m.state_dict.map Prod.fst) (hmiss : findKey k sd = none) :
    ∃ unexp mism, load_state_dict m sd =
        .error (.loadError (missingOf m sd) unexp mism) ∧
      k ∈ missingOf m sd := by
  have hkm : k ∈ missingOf m sd := List.mem_filter.mpr ⟨hk, by simp [hmiss]⟩
  have hne : missingOf m sd ≠ [] := List.ne_nil_of_mem hkm
  have hcond : ¬(missingOf m sd = [] ∧ unexpectedOf m sd = [] ∧
      mismatchOf m sd = []) := fun hc => hne hc.1
  refine ⟨unexpectedOf m sd, mismatchOf m sd, ?_, hkm⟩
  rw [load_state_dict, load_state_dict_post, if_neg hcond]

/-- C6, witness: the empty snapshot is missing the first hidden weight key
of the D4 model, and the load fails listing it. -/
theorem C6_missing_key_witness :
    ∃ unexp mism, load_state_dict net4 [] =
        .error (.loadError (missingOf net4 []) unexp mism) ∧
      PKey.hiddenWeight 0 ∈ missingOf net4 [] :=
  C6_missing_key net4 [] (.hiddenWeight 0) (by decide) rfl

/-- C7. Truncating the byte stream of any encoded checkpoint dictionary at
any point strictly before its end makes the load fail with the
deserialization error; the decoder is a total function, so there is no
crash and no model with silently zeroed tensors is returned. Every saved
artifact has this form, since saveBytes m is encode applied to the
checkpoint dictionary of m. -/
theorem C7_truncation (d : PyDict) (z : Nat → Nat → Nat → Nat) (k : Nat)
    (hk : k < (encode d).length) :
    loadFromBytes ((encode d).take k) z = .error .deserializationError := by
  rw [loadFromBytes, decodeBytes_trunc d k hk]

/-- C7, witness at the empty dictionary truncated to nothing. -/
theorem C7_truncation_witness :
    loadFromBytes ((encode []).take 0) z0 = .error .deserializationError :=
  C7_truncation [] z0 0 (by decide)

/-- C8. The saved artifact is a deterministic function of the model state
the checkpoint cell reads, namely the hidden layer widths and the ordered
parameter snapshot: two saves of models agreeing on those, in particular
two saves of one unchanged model, produce byte-identical artifacts. -/
theorem C8_save_deterministic (m1 m2 : Network)
    (hh : m1.hiddenSizes = m2.hiddenSizes)
    (hsd : m1.state_dict = m2.state_dict) :
    saveBytes m1 = saveBytes m2 := by
  rw [saveBytes, saveBytes, checkpoint, checkpoint, hh, hsd]

/-- C8, witness: saving the same model twice gives the same bytes. -/
theorem C8_save_deterministic_witness : saveBytes net4 = saveBytes net4 :=
  C8_save_deterministic net4 net4 rfl rfl

/-- C9. The snapshot of every factory-built network with n hidden layers
has exactly 2n plus 2 entries whose rendered key names are
hidden_layers.i.weight and hidden_layers.i.bias for i from 0 to n minus 1
in forward order, followed by output.weight and output.bias; this list is a
function of n alone, hence identical on every call for one architecture. -/
theorem C9_state_dict_keys (input output : Nat) (hidden : List Nat) (p : ℚ)
    (z : Nat → Nat → Nat → Nat) (m : Network)
    (hb : Network.build input output hidden p z = some m) :
    m.state_dict.map (fun kv => kv.1.render) = claimKeyNames hidden.length ∧
    m.state_dict.length = 2 * hidden.length + 2 := by
  have hsz := hiddenSizes_build input output hidden p z m hb
  have hlen : m.hidden_layers.length = hidden.length := by
    have h2 := congrArg List.length hsz
    rw [Network.hiddenSizes, List.length_map] at h2
    exact h2
  constructor
  · have h1 : m.state_dict.map (fun kv => kv.1.render) =
        (m.state_dict.map Prod.fst).map PKey.render := by
      rw [List.map_map]
      rfl
    rw [h1, Network.state_dict, List.map_append, map_fst_sdAux, hlen,
      List.map_append, keySeq_render, claimKeyNames, List.range_eq_range']
    rfl
  · rw [Network.state_dict, List.length_append, sdAux_length, hlen]
    rfl

/-- C9, witness at a one hidden layer build. -/
theorem C9_state_dict_keys_witness :
    ((Network.build 1 2 [3] 0 z0).getD junkNet).state_dict.map
        (fun kv => kv.1.render) = claimKeyNames 1 ∧
    ((Network.build 1 2 [3] 0 z0).getD junkNet).state_dict.length = 2 * 1 + 2 :=
  C9_state_dict_keys 1 2 [3] 0 z0 _ rfl

/-- C10. If the deserialized checkpoint dictionary lacks any of the fields
input_size, output_size or hidden_layers, load_checkpoint raises a
key-lookup error naming one of those fields, distinct from the codec
deserialization error, and its trace is empty: the Model Factory has not
been invoked and no parameter assignment has taken place. -/
theorem C10_missing_field (d : PyDict) (z : Nat → Nat → Nat → Nat)
    (h : findStr "input_size" d = none ∨ findStr "output_size" d = none ∨
      findStr "hidden_layers" d = none) :
    ∃ k, (k = "input_size" ∨ k = "output_size" ∨ k = "hidden_layers") ∧
      load_checkpoint d z = .error (.keyError k) ∧
      (load_checkpoint_tr d z).2 = [] := by
  obtain ⟨k, hks, htr⟩ := tr_keyError d z h
  exact ⟨k, hks, by rw [load_checkpoint, htr], by rw [htr]⟩

/-- C10, witness at the empty dictionary. -/
theorem C10_missing_field_witness :
    ∃ k, (k = "input_size" ∨ k = "output_size" ∨ k = "hidden_layers") ∧
      load_checkpoint [] z0 = .error (.keyError k) ∧
      (load_checkpoint_tr [] z0).2 = [] :=
  C10_missing_field [] z0 (Or.inl rfl)

end FcCkpt
